import Mathlib

/-!
# Verification of the qiskit-terra transpiler core specification

Shallow embedding of the repository's transpiler core:

* `qiskit/transpiler/passes/mapping/unroller.py` — the `Unroller` pass,
  modelled over a list-based circuit graph (`Op` nodes in topological
  order).  The `DAGCircuit` class itself is not part of the sources, so
  the graph container and its `substitute_circuit_one` splice are
  modelled from the spec (§4.1 Circuit Graph): a graph is its
  topologically ordered list of operation nodes, and substitution
  replaces one node by the rule's node sequence with quantum wires
  mapped through the node's operand list.
* `qiskit/extensions/standard/cu3.py` — the `cu3` decomposition rule.
* `qiskit/transpiler/passes/synthesis/unitary_synthesis.py` — the
  `UnitarySynthesis` pass (kak-gate choice, natural direction,
  mirrored resynthesis, node selection).
* `qiskit/result/utils.py` — `marginal_counts` and `count_keys`.
-/

set_option maxHeartbeats 1000000

namespace QiskitSpec

/-! ## Circuit graph operation nodes (Unroller side)

Modelled from the spec: the Circuit Graph (spec §3, §4.1) is not under
`src/` (only `unroller.py` uses it); we represent a graph by its
topologically ordered list of operation nodes.  An operation node
carries the operation identity (name, parameter list), its ordered
qubit operands, an optional classical condition `(register name, value)`,
the `opaque` flag, and the instance's decomposition rule list
(`_decompositions`), each rule being the rule dag's operation sequence
over a fresh local register (local qubit indices). -/

inductive Op (α : Type) : Type where
  | mk (name : String) (params : List α) (qargs : List Nat)
       (condition : Option (String × Nat)) (opq : Bool)
       (decomps : List (List (Op α))) : Op α

variable {α : Type}

def Op.name : Op α → String
  | .mk n _ _ _ _ _ => n

def Op.params : Op α → List α
  | .mk _ p _ _ _ _ => p

def Op.qargs : Op α → List Nat
  | .mk _ _ q _ _ _ => q

def Op.condition : Op α → Option (String × Nat)
  | .mk _ _ _ c _ _ => c

def Op.opq : Op α → Bool
  | .mk _ _ _ _ o _ => o

def Op.decomps : Op α → List (List (Op α))
  | .mk _ _ _ _ _ d => d

/-- The only error `Unroller.run` raises itself
(`TranspilerError("no decomposition rules defined for ", name)`,
unroller.py line 56). -/
inductive UErr : Type where
  | noDecompositionRule

/-- Python membership test `n in l` on a list of strings (e.g.
`current_node["op"].name not in self.basis`, unroller.py line 52). -/
def strMem (l : List String) (n : String) : Bool :=
  match l with
  | [] => false
  | b :: bs => if n = b then true else strMem bs n

/-- Set the classical condition of an operation
(`n["op"].control = condition` replayed with
`apply_operation_back(n["op"], condition=condition)`,
unroller.py lines 70 and 75). -/
def setCondition (c : String × Nat) : Op α → Op α
  | .mk n p q _ o d => .mk n p q (some c) o d

/-- Conditional amendment of a decomposition rule (unroller.py lines
64-75): when the expanded node carries a condition, every operation of
the rule is re-emitted tagged with that condition and the condition's
register is added to the rule dag's classical registers.  Rule dags as
built by `_define_decompositions` (e.g. cu3.py lines 37-52) declare a
quantum register only, so the rule's classical-register list starts
empty.  Returns (rule operations, rule classical registers). -/
def conditionDecomp (cond : Option (String × Nat)) (rule : List (Op α)) :
    List (Op α) × List String :=
  match cond with
  | none => (rule, [])
  | some c => (rule.map (setCondition c), [c.1])

/-- Modelled from the spec: `DAGCircuit.substitute_circuit_one` is not
under `src/`; per spec §4.1/§4.3 the splice maps the rule's local
wires, quantum wires first in declaration order, onto the substituted
node's operands.  `mapWires pq` sends local qubit `i` to `pq[i]`. -/
def mapWires (pq : List Nat) : Op α → Op α
  | .mk n p q c o d => .mk n p (q.map (fun i => pq.getD i 0)) c o d

/-- Processing of one operation node of the topological order
(unroller.py lines 49-86): nodes already in the basis or flagged opaque
are kept; otherwise the first decomposition rule is selected (line 59),
amended with the node's condition if any, and spliced in place of the
node; an empty (or absent) rule list raises. -/
def expandNode (basis : List String) (o : Op α) : Except UErr (List (Op α)) :=
  if strMem basis o.name || o.opq then .ok [o]
  else
    match o.decomps with
    | [] => .error .noDecompositionRule
    | rule :: _ =>
      .ok ((conditionDecomp o.condition rule).1.map (mapWires o.qargs))

/-- One full pass of the `for node in topological_sorted_list` loop
(unroller.py lines 49-86): the nodes of the incoming graph are expanded
in topological order; nodes spliced in by an expansion are not
revisited during the same pass (the topological order is computed once,
line 48).  The first failing node aborts the pass. -/
def expandPass (basis : List String) : List (Op α) → Except UErr (List (Op α))
  | [] => .ok []
  | o :: rest =>
    match expandNode basis o with
    | .error e => .error e
    | .ok h =>
      match expandPass basis rest with
      | .error e => .error e
      | .ok t => .ok (h ++ t)

/-- `gate_set.issubset(self.basis)` for the non-opaque operations of
the graph (unroller.py lines 88-94). -/
def conformant (basis : List String) (ops : List (Op α)) : Bool :=
  ops.all (fun o => o.opq || strMem basis o.name)

/-- `Unroller.run` (unroller.py lines 32-96): run one expansion pass;
if the resulting non-opaque gate set is not yet a subset of the basis,
recurse on the result.  The source recursion has no termination
measure (spec §9), so the model is fuel-indexed: `none` means the fuel
was exhausted before the run terminated, `some (.error e)` that the run
raised, `some (.ok out)` that it returned `out`. -/
def unrollerRun (basis : List String) : Nat → List (Op α) → Option (Except UErr (List (Op α)))
  | 0, _ => none
  | fuel + 1, ops =>
    match expandPass basis ops with
    | .error e => some (.error e)
    | .ok ops' =>
      if conformant basis ops' then some (.ok ops') else unrollerRun basis fuel ops'

/-- The graph reached just before iteration `k` of the `Unroller.run`
recursion, when the run gets that far without raising and without
having reached a basis-conformant graph. -/
def passIter (basis : List String) : Nat → List (Op α) → Option (List (Op α))
  | 0, ops => some ops
  | k + 1, ops =>
    match expandPass basis ops with
    | .error _ => none
    | .ok ops' =>
      if conformant basis ops' then none else passIter basis k ops'

/-- A graph contains a node triggering the `TranspilerError` of
unroller.py lines 55-57: an operation outside the basis, not flagged
opaque, with an empty decomposition rule list. -/
def hasBadNode (basis : List String) (ops : List (Op α)) : Bool :=
  ops.any (fun o => !(strMem basis o.name || o.opq) && o.decomps.isEmpty)

/-! ## The cu3 gate and its decomposition rule (cu3.py) -/

/-- The decomposition rule built by `Cu3Gate._define_decompositions`
(cu3.py lines 29-52) on the rule's fresh two-qubit register: local
qubit 0 is the control, local qubit 1 the target.  The child gates
`u1`, `cx`, `u3` are gate classes outside `src/`; they are plain
operations with no condition here, as `_define_decompositions`
constructs them. -/
def cu3Rule [Add α] [Sub α] [Neg α] [Div α] [OfNat α 0] [OfNat α 1] [OfNat α 2]
    (theta phi lam : α) : List (Op α) :=
  [ .mk "u1" [(lam - phi) / 2] [1] none false [],
    .mk "cx" [] [0, 1] none false [],
    .mk "u3" [-theta / 2, 0, -(phi + lam) / 2] [1] none false [],
    .mk "cx" [] [0, 1] none false [],
    .mk "u3" [theta / 2, phi, 0] [1] none false [] ]

/-- A `cu3` operation node (`Cu3Gate`, cu3.py lines 22-52) applied to
control `ctl` and target `tgt`, with its decomposition rule list. -/
def cu3Gate [Add α] [Sub α] [Neg α] [Div α] [OfNat α 0] [OfNat α 1] [OfNat α 2]
    (theta phi lam : α) (ctl tgt : Nat) : Op α :=
  .mk "cu3" [theta, phi, lam] [ctl, tgt] none false [cu3Rule theta phi lam]

/-! ## UnitarySynthesis pass (unitary_synthesis.py) -/

/-- A node of a synthesized circuit: a gate name and its qubit
operands.  For a decomposer output these are the internal qubits 0/1;
after splicing they are the substituted node's wires. -/
structure GNode where
  name : String
  qargs : List Nat
  deriving DecidableEq

/-- The known two-qubit KAK primitives of `_choose_kak_gate`
(unitary_synthesis.py lines 35-41), in the dict's insertion order. -/
def kakGateNames : List String := ["cx", "cz", "iswap", "rxx", "ecr"]

/-- `_choose_kak_gate` (unitary_synthesis.py lines 32-48).  The code
computes `set(basis_gates or []).intersection(kak_gate_names.keys())`
and, when that set is nonempty, takes `kak_gates.pop()` — an arbitrary
element of a Python `set` of strings, whose iteration order depends on
the per-process randomized string hash.  The unspecified choice is
modelled by the selection function `pop`; the returned value is the
chosen gate's name (the source returns the gate object keyed by it). -/
def choose_kak_gate (pop : List String → Option String) (basis_gates : List String) :
    Option String :=
  let kakGates := basis_gates.eraseDups.filter (fun g => strMem kakGateNames g)
  if kakGates.isEmpty then none else pop kakGates

/-- A `pop` models Python `set.pop` when, on every nonempty set, it
returns some member of the set. -/
def ValidPop (pop : List String → Option String) : Prop :=
  ∀ l : List String, l ≠ [] → ∃ x, pop l = some x ∧ x ∈ l

/-- Strict comparison of optional gate durations (unitary_synthesis.py
lines 150-166): a failed `gate_length` lookup (`BackendPropertyError`)
leaves the duration at `inf`, modelled by `none`. -/
def qlt : Option ℚ → Option ℚ → Bool
  | some a, some b => decide (a < b)
  | some _, none => true
  | none, _ => false

/-- Natural direction from calibration durations (unitary_synthesis.py
lines 163-166): `[0, 1]` if the 0→1 duration is strictly shorter,
`[1, 0]` if the 1→0 duration is strictly shorter, otherwise no natural
direction. -/
def naturalDirectionProps (len01 len10 : Option ℚ) : Option (List Nat) :=
  if qlt len01 len10 then some [0, 1]
  else if qlt len10 len01 then some [1, 0]
  else none

/-- Natural direction from the coupling map (unitary_synthesis.py
lines 141-147): asserted only when exactly one of the two directed
adjacencies exists. -/
def naturalDirectionCoupling (adj : Nat → Nat → Bool) (q0 q1 : Nat) : Option (List Nat) :=
  if adj q0 q1 && !(adj q1 q0) then some [0, 1]
  else if adj q1 q0 && !(adj q0 q1) then some [1, 0]
  else none

/-- Calibration table interface (spec §6): per-qubit-pair `cx` gate
length and gate error; `none` models a `BackendPropertyError` lookup
failure. -/
structure BProps where
  gate_length : Nat → Nat → Option ℚ
  gate_error : Nat → Nat → Option ℚ

/-- The backend-properties branch (unitary_synthesis.py lines
149-171): natural direction from the measured `cx` durations of the
two directions, plus the physical gate fidelity `1 - gate_error` of
the natural direction when one was found (the code's unused
`physical_gate_duration` is omitted). -/
def propsDirection (bp : BProps) (q0 q1 : Nat) : Option (List Nat) × Option ℚ :=
  match naturalDirectionProps (bp.gate_length q0 q1) (bp.gate_length q1 q0) with
  | some nd =>
    let a := if nd = [0, 1] then q0 else q1
    let b := if nd = [0, 1] then q1 else q0
    (some nd, (bp.gate_error a b).map (fun e => 1 - e))
  | none => (none, none)

/-- `basis_fidelity = self._fidelity or physical_gate_fidelity`
(unitary_synthesis.py line 173): Python `or` falls through to the
physical fidelity when the configured fidelity is falsy (zero). -/
def usBasisFidelity (fid : ℚ) (phys : Option ℚ) : Option ℚ :=
  if fid = 0 then phys else some fid

/-- Index permutation of the matrix mirroring (unitary_synthesis.py
lines 183-185). -/
def swap12 : Fin 4 → Fin 4 :=
  fun i => if i = 1 then 2 else if i = 2 then 1 else i

/-- A 4×4 matrix over entries `β` (the `su4_mat` of a two-qubit
node). -/
def Mat4 (β : Type) : Type := Fin 4 → Fin 4 → β

/-- The mirrored matrix (unitary_synthesis.py lines 183-185): rows 1
and 2 swapped, then columns 1 and 2 swapped. -/
def mirrorMat {β : Type} (M : Mat4 β) : Mat4 β :=
  fun i j => M (swap12 i) (swap12 j)

/-- `synth_dag.two_qubit_ops()`: the operations touching exactly two
qubits. -/
def twoQubitOps (l : List GNode) : List GNode :=
  l.filter (fun o => o.qargs.length == 2)

/-- Wire mapping of `substitute_node_with_dag` for a synthesized dag:
synthesized qubit `i` is spliced onto `wires[i]`; the mirrored branch
passes the wire list reversed end-to-end (`synth_dag.wires[::-1]`,
unitary_synthesis.py line 188). -/
def spliceOps (wires : List Nat) (l : List GNode) : List GNode :=
  l.map (fun o => GNode.mk o.name (o.qargs.map (fun i => wires.getD i 0)))

/-- The two-qubit branch of `UnitarySynthesis.run` (unitary_synthesis.py
lines 133-194) for a node on wires `(q0, q1)` with matrix `M`.
`decomp` models the `TwoQubitBasisDecomposer` (not under `src/`): it
maps a basis fidelity and a matrix to the synthesized gate sequence on
internal qubits 0/1.  The natural direction comes from the coupling
map when one is present, else from the calibration properties.  If a
natural direction exists, pulse optimization is on, and the first
synthesized two-qubit gate's operand order disagrees with it, the
decomposition is recomputed on the mirrored matrix and spliced with
the wires reversed. -/
def synthTwoQubitNode {β : Type} (decomp : Option ℚ → Mat4 β → List GNode)
    (pulse : Bool) (fid : ℚ) (layout : Bool)
    (coupling : Option (Nat → Nat → Bool)) (props : Option BProps)
    (q0 q1 : Nat) (M : Mat4 β) : List GNode :=
  let ndpf : Option (List Nat) × Option ℚ :=
    match layout, coupling, props with
    | true, some adj, _ => (naturalDirectionCoupling adj q0 q1, none)
    | true, none, some bp => propsDirection bp q0 q1
    | _, _, _ => (none, none)
  let bf := usBasisFidelity fid ndpf.2
  let sd := decomp bf M
  match ndpf.1 with
  | some nd =>
    if pulse && !(twoQubitOps sd).isEmpty &&
        !(((twoQubitOps sd).headD (GNode.mk "" [])).qargs == nd) then
      spliceOps [q1, q0] (decomp bf (mirrorMat M))
    else spliceOps [q0, q1] sd
  | none => spliceOps [q0, q1] sd

/-- Node selection of `UnitarySynthesis.run` (unitary_synthesis.py
line 124): `['unitary', 'swap']` when pulse optimization is on, else
`['unitary']`. -/
def nodesToSynthesize (pulse : Bool) : List String :=
  if pulse then ["unitary", "swap"] else ["unitary"]

/-- The node-rewriting loop of `UnitarySynthesis.run`
(unitary_synthesis.py lines 124-196) over the graph's node sequence:
nodes whose name is among `nodesToSynthesize` are replaced by their
synthesis (`synth` abstracts the per-node synthesis of lines 127-194,
including the cases where the node is left untouched by `continue`),
all other nodes are kept as they are. -/
def usRun (pulse : Bool) (synth : GNode → List GNode) : List GNode → List GNode
  | [] => []
  | n :: rest =>
    (if strMem (nodesToSynthesize pulse) n.name then synth n else [n]) ++
      usRun pulse synth rest

/-! ## marginal_counts (result/utils.py) -/

/-- One element of the regex built at utils.py lines 60-66: `\d`
matches any digit character; a literal matches itself. -/
inductive RPat : Type where
  | digit
  | lit (c : Char)

/-- The anchored matching of `re.match` for the patterns of utils.py:
each element consumes one character (`re.match` only requires the
pattern to match a prefix of the key). -/
def rmatch : List RPat → List Char → Bool
  | [], _ => true
  | _ :: _, [] => false
  | .digit :: ps, c :: cs => c.isDigit && rmatch ps cs
  | .lit d :: ps, c :: cs => (c == d) && rmatch ps cs

/-- `key.replace(' ', '')` — trim the whitespace separating classical
registers (utils.py lines 38, 45, 73). -/
def stripSpaces (s : List Char) : List Char :=
  s.filter (fun c => !(c == ' '))

/-- `bin(j)[2:].zfill(n)` — the `n`-bit binary string of `j`, most
significant bit first (utils.py line 89). -/
def toBin (n j : Nat) : List Char :=
  (List.range n).map (fun i => if (j >>> (n - 1 - i)) % 2 == 1 then '1' else '0')

/-- `count_keys` (utils.py lines 87-89): the ordered list of all
`num_clbits`-bit outcome strings. -/
def count_keys (num_clbits : Nat) : List (List Char) :=
  (List.range (2 ^ num_clbits)).map (toBin num_clbits)

/-- Insertion step of `sortDesc`. -/
def insertDesc (x : Nat) : List Nat → List Nat
  | [] => [x]
  | y :: ys => if x ≥ y then x :: y :: ys else y :: insertDesc x ys

/-- `sorted(indices, reverse=True)` (utils.py line 54). -/
def sortDesc (l : List Nat) : List Nat :=
  l.foldr insertDesc []

/-- `indices.index(y)` (utils.py line 64); only evaluated at members
of the list. -/
def idxOf (y : Nat) : List Nat → Nat
  | [] => 0
  | z :: zs => if z = y then 0 else idxOf y zs + 1

/-- The regex for one output key (utils.py lines 60-66):
`reduce(_helper, range(num_clbits), '')` prepends, for each bit
position `y`, the key character of `y`'s slot when `y` is kept and
`\d` otherwise, so the built pattern reads bit `num_clbits-1` first
and bit 0 last. -/
def buildPat (num_clbits : Nat) (indices : List Nat) (key : List Char) : List RPat :=
  (List.range num_clbits).foldl
    (fun acc y =>
      (if indices.contains y then RPat.lit (key.getD (idxOf y indices) '0')
       else RPat.digit) :: acc) []

/-- `marginal_counts` (utils.py lines 22-84).  Counts are modelled as
an association list in insertion order (Python dicts iterate in
insertion order); keys are character lists.  `.error` models a raised
error: the `QiskitError` for out-of-range indices, and the
`StopIteration` of `next(iter(counts))` on an empty dict. -/
def marginal_counts (counts : List (List Char × Nat)) (indices : Option (List Nat))
    (pad_zeros : Bool) : Except String (List (List Char × Nat)) :=
  match counts with
  | [] => .error "empty counts"
  | (k0, _) :: _ =>
    let num_clbits := (stripSpaces k0).length
    let trimmed := counts.map (fun kv => (stripSpaces kv.1, kv.2))
    match indices with
    | none => .ok trimmed
    | some idx =>
      if (List.range num_clbits).all (fun i => idx.contains i) &&
          idx.all (fun i => (List.range num_clbits).contains i) then
        .ok trimmed
      else if !(idx.all (fun i => decide (i < num_clbits))) then
        .error "indices must be in range"
      else
        let sidx := sortDesc idx
        let meas_keys := count_keys sidx.length
        let rgx := meas_keys.map (buildPat num_clbits sidx)
        let meas_counts := rgx.map (fun m =>
          counts.foldl (fun c kv => if rmatch m (stripSpaces kv.1) then c + kv.2 else c) 0)
        let pairs := meas_keys.zip meas_counts
        .ok (if pad_zeros then pairs else pairs.filter (fun kv => !(kv.2 == 0)))

/-! ## Concrete instances used by scenarios and witnesses -/

/-- The counts dict of the C8 scenario. -/
def countsC8 : List (List Char × Nat) :=
  [(['0', '0', '0'], 10), (['0', '1', '1'], 5), (['1', '0', '1'], 3), (['1', '1', '0'], 2)]

/-- A one-node, basis-conformant graph for the unroller witnesses. -/
def u1Node : Op ℚ := .mk "u1" [0] [0] none false []

/-- A rule operation for the condition-preservation witness. -/
def condOpInner : Op ℚ := .mk "x" [] [0] none false []

/-- A conditioned non-basis operation with a one-gate rule, for the
condition-preservation witness. -/
def condOpOuter : Op ℚ := .mk "mygate" [] [2] (some ("c0", 1)) false [[condOpInner]]

/-- A decomposer instance whose first (and only) two-qubit gate comes
out on internal operands (1, 0), for the direction-fidelity witness. -/
def decompW : Option ℚ → Mat4 ℚ → List GNode :=
  fun _ _ => [GNode.mk "cx" [1, 0]]

/-- A concrete two-qubit matrix for the direction-fidelity witness. -/
def matW : Mat4 ℚ := fun _ _ => 0

/-- A coupling map where 0→1 is adjacent but 1→0 is not. -/
def adjW : Nat → Nat → Bool := fun a b => a == 0 && b == 1

end QiskitSpec

namespace QiskitSpec

/-! ## Theorems for the claims -/

/-! ### Helper lemmas -/

theorem condition_setCondition {α : Type} (c : String × Nat) (o : Op α) :
    (setCondition c o).condition = some c := by
  cases o
  rfl

theorem condition_mapWires {α : Type} (pq : List Nat) (o : Op α) :
    (mapWires pq o).condition = o.condition := by
  cases o
  rfl

theorem hasBadNode_cons {α : Type} (basis : List String) (o : Op α) (rest : List (Op α)) :
    hasBadNode basis (o :: rest) =
      ((!(strMem basis o.name || o.opq) && o.decomps.isEmpty) || hasBadNode basis rest) := rfl

theorem expandNode_error_iff {α : Type} (basis : List String) (o : Op α) :
    expandNode basis o = Except.error UErr.noDecompositionRule ↔
      (!(strMem basis o.name || o.opq) && o.decomps.isEmpty) = true := by
  unfold expandNode
  cases hb : (strMem basis o.name || o.opq) with
  | false => cases hd : o.decomps <;> simp [hb, hd]
  | true => simp [hb]

theorem expandNode_ok_not_bad {α : Type} {basis : List String} {o : Op α}
    {out : List (Op α)} (he : expandNode basis o = Except.ok out) :
    (!(strMem basis o.name || o.opq) && o.decomps.isEmpty) = false := by
  cases hx : (!(strMem basis o.name || o.opq) && o.decomps.isEmpty) with
  | false => rfl
  | true =>
    rw [(expandNode_error_iff basis o).mpr hx] at he
    exact Except.noConfusion he

theorem expandPass_error_iff {α : Type} (basis : List String) (ops : List (Op α)) :
    expandPass basis ops = Except.error UErr.noDecompositionRule ↔
      hasBadNode basis ops = true := by
  induction ops with
  | nil =>
    constructor
    · intro h
      exact Except.noConfusion h
    · intro h
      exact Bool.noConfusion h
  | cons o rest ih =>
    rw [hasBadNode_cons]
    cases he : expandNode basis o with
    | error e =>
      cases e
      have hbo := (expandNode_error_iff basis o).mp he
      have hL : expandPass basis (o :: rest) = Except.error UErr.noDecompositionRule := by
        rw [expandPass, he]
      rw [hL, hbo]
      simp
    | ok h =>
      have hbo := expandNode_ok_not_bad he
      cases hp : expandPass basis rest with
      | error e2 =>
        cases e2
        have hL : expandPass basis (o :: rest) = Except.error UErr.noDecompositionRule := by
          rw [expandPass, he, hp]
        rw [hL, hbo, ih.mp hp]
        simp
      | ok t =>
        have hrest : hasBadNode basis rest = false := by
          cases hx : hasBadNode basis rest with
          | false => rfl
          | true =>
            rw [ih.mpr hx] at hp
            exact Except.noConfusion hp
        have hL : expandPass basis (o :: rest) = Except.ok (h ++ t) := by
          rw [expandPass, he, hp]
        rw [hL, hbo, hrest]
        simp

theorem conformant_mem {α : Type} {basis : List String} {l : List (Op α)}
    (h : conformant basis l = true) :
    ∀ o ∈ l, o.opq = false → strMem basis o.name = true := by
  intro o ho hq
  have hall := (List.all_eq_true.mp h) o ho
  rw [hq] at hall
  simpa using hall

theorem expandPass_conformant {α : Type} {basis : List String} {ops : List (Op α)}
    (h : conformant basis ops = true) : expandPass basis ops = Except.ok ops := by
  induction ops with
  | nil => rfl
  | cons o rest ih =>
    have h1 : (o.opq || strMem basis o.name) = true :=
      (List.all_eq_true.mp h) o (List.mem_cons_self o rest)
    have h2 : conformant basis rest = true :=
      List.all_eq_true.mpr
        (fun x hx => (List.all_eq_true.mp h) x (List.mem_cons_of_mem o hx))
    have hn : expandNode basis o = Except.ok [o] := by
      rw [Bool.or_comm] at h1
      simp [expandNode, h1]
    rw [expandPass, hn, ih h2]
    rfl

/-! ### Claim theorems (Unroller) -/

/-- C2: when the Unroller decomposes an operation node carrying a
classical condition `(reg, val)`, every operation node produced by the
decomposition carries exactly the same condition, and the condition's
register is added to the replacement's classical resources; a node
that is skipped is kept as it is, and the expansion of an
unconditioned node introduces no condition (rule operations, as built
by `_define_decompositions`, are themselves unconditioned). -/
theorem unroller_condition_preservation {α : Type} (basis : List String) (o : Op α)
    (out : List (Op α)) (r : String) (v : Nat)
    (hok : expandNode basis o = Except.ok out) :
    ((strMem basis o.name || o.opq) = true → out = [o]) ∧
    ((strMem basis o.name || o.opq) = false → o.condition = some (r, v) →
      (∀ p ∈ out, p.condition = some (r, v)) ∧
      r ∈ (conditionDecomp o.condition (o.decomps.headD [])).2) ∧
    ((strMem basis o.name || o.opq) = false → o.condition = none →
      (∀ q ∈ o.decomps.headD [], q.condition = none) →
      ∀ p ∈ out, p.condition = none) := by
  cases hb : (strMem basis o.name || o.opq) with
  | true =>
    have hout : out = [o] := by
      unfold expandNode at hok
      rw [hb] at hok
      simp at hok
      exact hok.symm
    exact ⟨fun _ => hout, fun hfalse => Bool.noConfusion hfalse,
      fun hfalse => Bool.noConfusion hfalse⟩
  | false =>
    unfold expandNode at hok
    rw [hb] at hok
    cases hd : o.decomps with
    | nil =>
      rw [hd] at hok
      simp at hok
    | cons rule rs =>
      rw [hd] at hok
      simp at hok
      refine ⟨fun hf => Bool.noConfusion hf, fun _ hc => ?_, fun _ hc hrule => ?_⟩
      · constructor
        · intro p hp
          rw [← hok, hc] at hp
          simp only [conditionDecomp, List.mem_map] at hp
          obtain ⟨q, ⟨q0, hq0, hqq⟩, hpq⟩ := hp
          rw [← hpq, condition_mapWires, ← hqq, condition_setCondition]
        · rw [hc]
          simp [conditionDecomp]
      · intro p hp
        rw [← hok, hc] at hp
        simp only [conditionDecomp, List.mem_map] at hp
        obtain ⟨q, hq, hpq⟩ := hp
        rw [← hpq, condition_mapWires]
        exact hrule q hq

/-- Witness for C2 at a concrete conditioned node: the node `mygate`
on wire 2, conditioned on `("c0", 1)`, with a one-operation rule. -/
theorem unroller_condition_preservation_witness :
    (∀ p ∈ [Op.mk "x" ([] : List ℚ) [2] (some ("c0", 1)) false []],
        p.condition = some ("c0", 1)) ∧
      "c0" ∈ (conditionDecomp condOpOuter.condition (condOpOuter.decomps.headD [])).2 :=
  (unroller_condition_preservation [] condOpOuter
      [Op.mk "x" ([] : List ℚ) [2] (some ("c0", 1)) false []] "c0" 1 rfl).2.1 rfl rfl

/-- C3: whenever `Unroller.run` terminates without raising, every
non-opaque operation of the returned graph has a name in the requested
basis. -/
theorem unroller_basis_closure {α : Type} (basis : List String) (fuel : Nat)
    (ops out : List (Op α))
    (h : unrollerRun basis fuel ops = some (Except.ok out)) :
    ∀ o ∈ out, o.opq = false → strMem basis o.name = true := by
  induction fuel generalizing ops with
  | zero => exact Option.noConfusion h
  | succ n ih =>
    cases he : expandPass basis ops with
    | error e =>
      have hrw : unrollerRun basis (n + 1) ops = some (Except.error e) := by
        simp only [unrollerRun, he]
      rw [hrw] at h
      simp at h
    | ok ops' =>
      have hrw : unrollerRun basis (n + 1) ops =
          (if conformant basis ops' = true then some (Except.ok ops')
           else unrollerRun basis n ops') := by
        simp only [unrollerRun, he]
      rw [hrw] at h
      by_cases hc : conformant basis ops' = true
      · rw [if_pos hc] at h
        have hoo : ops' = out := Except.ok.inj (Option.some.inj h)
        subst hoo
        exact conformant_mem hc
      · rw [if_neg hc] at h
        exact ih ops' h

/-- Witness for C3 on a one-node graph already in the basis. -/
theorem unroller_basis_closure_witness :
    strMem ["u1"] u1Node.name = true :=
  unroller_basis_closure ["u1"] 1 [u1Node] [u1Node] rfl u1Node
    (List.mem_singleton.mpr rfl) rfl

/-- C4: `Unroller.run` raises its no-decomposition-rule
`TranspilerError` exactly when the iteration reaches a graph holding
an operation node whose name is outside the basis, that is not flagged
opaque, and whose decomposition rule list is empty; in the raising
case no graph is returned (the error propagates to the caller). -/
theorem unroller_error_iff {α : Type} (basis : List String) (fuel : Nat)
    (ops : List (Op α)) :
    unrollerRun basis fuel ops = some (Except.error UErr.noDecompositionRule) ↔
      ∃ k, k < fuel ∧ ∃ mid, passIter basis k ops = some mid ∧
        hasBadNode basis mid = true := by
  induction fuel generalizing ops with
  | zero =>
    constructor
    · intro h
      exact Option.noConfusion h
    · rintro ⟨k, hk, -⟩
      omega
  | succ n ih =>
    cases he : expandPass basis ops with
    | error e =>
      cases e
      have hrw : unrollerRun basis (n + 1) ops =
          some (Except.error UErr.noDecompositionRule) := by
        simp only [unrollerRun, he]
      rw [hrw]
      constructor
      · intro _
        exact ⟨0, Nat.succ_pos n, ops, rfl, (expandPass_error_iff basis ops).mp he⟩
      · intro _
        rfl
    | ok ops' =>
      have hb : hasBadNode basis ops = false := by
        cases hx : hasBadNode basis ops with
        | false => rfl
        | true =>
          rw [(expandPass_error_iff basis ops).mpr hx] at he
          exact Except.noConfusion he
      have hrw : unrollerRun basis (n + 1) ops =
          (if conformant basis ops' = true then some (Except.ok ops')
           else unrollerRun basis n ops') := by
        simp only [unrollerRun, he]
      have hstep : ∀ j, passIter basis (j + 1) ops =
          (if conformant basis ops' = true then none else passIter basis j ops') := by
        intro j
        simp only [passIter, he]
      rw [hrw]
      by_cases hc : conformant basis ops' = true
      · rw [if_pos hc]
        constructor
        · intro h
          exact Except.noConfusion (Option.some.inj h)
        · rintro ⟨k, hk, mid, hmid, hbad⟩
          cases k with
          | zero =>
            have hmo : ops = mid := Option.some.inj hmid
            rw [← hmo, hb] at hbad
            exact Bool.noConfusion hbad
          | succ j =>
            rw [hstep j, if_pos hc] at hmid
            exact Option.noConfusion hmid
      · rw [if_neg hc, ih ops']
        constructor
        · rintro ⟨k, hk, mid, hmid, hbad⟩
          refine ⟨k + 1, by omega, mid, ?_, hbad⟩
          rw [hstep k, if_neg hc]
          exact hmid
        · rintro ⟨k, hk, mid, hmid, hbad⟩
          cases k with
          | zero =>
            have hmo : ops = mid := Option.some.inj hmid
            rw [← hmo, hb] at hbad
            exact Bool.noConfusion hbad
          | succ j =>
            rw [hstep j, if_neg hc] at hmid
            exact ⟨j, by omega, mid, hmid, hbad⟩

/-- C9: on a graph whose non-opaque operations are all already in the
basis, `Unroller.run` is a no-op: it returns the graph unchanged. -/
theorem unroller_idempotent {α : Type} (basis : List String) (fuel : Nat)
    (ops : List (Op α)) (h : conformant basis ops = true) :
    unrollerRun basis (fuel + 1) ops = some (Except.ok ops) := by
  have hrw : unrollerRun basis (fuel + 1) ops =
      (if conformant basis ops = true then some (Except.ok ops)
       else unrollerRun basis fuel ops) := by
    simp only [unrollerRun, expandPass_conformant h]
  rw [hrw, if_pos h]

/-- Witness for C9 on a one-node conformant graph. -/
theorem unroller_idempotent_witness :
    unrollerRun ["u1"] 1 [u1Node] = some (Except.ok [u1Node]) :=
  unroller_idempotent ["u1"] 0 [u1Node] rfl

/-- C1: For `cu3(θ=π/2, φ=0, λ=0)` on qubits (control 0, target 1),
basis `{u1, u3, cx}`, no classical condition, `Unroller.run` returns
exactly the five-node sequence `u1((λ−φ)/2)`, `cx`,
`u3(−θ/2, 0, −(φ+λ)/2)`, `cx`, `u3(θ/2, φ, 0)` applied to wires (1),
(0,1), (1), (0,1), (1) respectively. -/
theorem unroller_cu3_scenario :
    unrollerRun ["u1", "u3", "cx"] 1 [cu3Gate (Real.pi / 2) 0 0 0 1] =
      some (Except.ok
        [ .mk "u1" [((0 : ℝ) - 0) / 2] [1] none false [],
          .mk "cx" [] [0, 1] none false [],
          .mk "u3" [-(Real.pi / 2) / 2, 0, -((0 : ℝ) + 0) / 2] [1] none false [],
          .mk "cx" [] [0, 1] none false [],
          .mk "u3" [(Real.pi / 2) / 2, 0, 0] [1] none false [] ]) := rfl

/-! ### Claim theorems (UnitarySynthesis) -/

/-- C5 (exhibit of the defect): `_choose_kak_gate` takes `set.pop()`
of the intersection, an arbitrary member whose identity depends on the
set's hash-based iteration order, not on a fixed priority list.  Two
admissible `set.pop` behaviours select different gates on the basis
`['cx', 'cz']`, so two runs over a basis containing more than one
known two-qubit primitive need not select the same gate. -/
theorem choose_kak_gate_run_dependent :
    ∃ p1 p2, ValidPop p1 ∧ ValidPop p2 ∧
      choose_kak_gate p1 ["cx", "cz"] = some "cx" ∧
      choose_kak_gate p2 ["cx", "cz"] = some "cz" ∧
      choose_kak_gate p1 ["cx", "cz"] ≠ choose_kak_gate p2 ["cx", "cz"] := by
  refine ⟨fun l => l.head?, fun l => l.reverse.head?, ?_, ?_, rfl, rfl, by decide⟩
  · intro l hl
    cases l with
    | nil => exact absurd rfl hl
    | cons a t => exact ⟨a, rfl, List.mem_cons_self a t⟩
  · intro l hl
    cases hr : l.reverse with
    | nil => exact absurd (List.reverse_eq_nil_iff.mp hr) hl
    | cons a t =>
      refine ⟨a, by simp [hr], ?_⟩
      have ha : a ∈ l.reverse := by
        rw [hr]
        exact List.mem_cons_self a t
      exact List.mem_reverse.mp ha

/-- C6 counterexample: with the 0→1 duration measured and the 1→0
duration unavailable (lookup error, left at `inf`), the code asserts
natural direction `[0, 1]`, whereas the claim says no natural
direction is asserted when one direction's duration is unavailable. -/
theorem natural_direction_one_unavailable_cex :
    naturalDirectionProps (some 1) none = some [0, 1] ∧
      naturalDirectionProps (some 1) none ≠ none := by
  exact ⟨rfl, by decide⟩

/-- C6 amended: with an unavailable duration treated as infinite, the
natural direction is the direction with the strictly shorter measured
duration; none is asserted exactly when the two durations are equal or
both unavailable; when exactly one direction's duration is available,
that direction is asserted. -/
theorem natural_direction_props_characterization (a b : ℚ) :
    naturalDirectionProps none none = none ∧
    naturalDirectionProps (some a) none = some [0, 1] ∧
    naturalDirectionProps none (some b) = some [1, 0] ∧
    naturalDirectionProps (some a) (some b) =
      (if a < b then some [0, 1] else if b < a then some [1, 0] else none) := by
  refine ⟨rfl, rfl, rfl, ?_⟩
  by_cases h1 : a < b
  · simp [naturalDirectionProps, qlt, h1]
  · by_cases h2 : b < a
    · simp [naturalDirectionProps, qlt, h1, h2]
    · simp [naturalDirectionProps, qlt, h1, h2]

theorem twoQubitOps_spliceOps (w : List Nat) (l : List GNode) :
    twoQubitOps (spliceOps w l) = spliceOps w (twoQubitOps l) := by
  induction l with
  | nil => rfl
  | cons o rest ih =>
    have hlen : (((o.qargs.map (fun i => w.getD i 0)).length == 2) : Bool) =
        ((o.qargs.length == 2) : Bool) := by
      rw [List.length_map]
    cases hq : ((o.qargs.length == 2) : Bool) with
    | false =>
      simp only [twoQubitOps, spliceOps, List.map_cons, List.filter_cons] at *
      rw [hlen, hq] at *
      simpa using ih
    | true =>
      simp only [twoQubitOps, spliceOps, List.map_cons, List.filter_cons] at *
      rw [hlen, hq] at *
      simp only [if_true, List.map_cons]
      rw [ih]

/-- C7: for a two-qubit node where the coupling map makes 0→1 adjacent
but not 1→0 (so natural direction `[0, 1]` under identity layout),
pulse-count optimization is enabled, and the first synthesized
two-qubit gate's operand order disagrees with the natural direction,
`UnitarySynthesis` recomputes the decomposition on the mirrored matrix
(rows 1 and 2 swapped, then columns 1 and 2 swapped) and splices that
result with the wire mapping reversed end-to-end; consequently the
spliced result's first two-qubit gate is oriented 0→1.  The hypothesis
on the mirrored synthesis is modelled from the spec: the
`TwoQubitBasisDecomposer` is not under `src/`, and the spec asserts
the mirrored, wire-reversed resynthesis makes the physical direction
match. -/
theorem us_direction_fidelity {β : Type} (decomp : Option ℚ → Mat4 β → List GNode)
    (fid : ℚ) (adj : Nat → Nat → Bool) (M : Mat4 β)
    (h01 : adj 0 1 = true) (h10 : adj 1 0 = false)
    (hne : (twoQubitOps (decomp (usBasisFidelity fid none) M)).isEmpty = false)
    (hdis : (((twoQubitOps (decomp (usBasisFidelity fid none) M)).headD
        (GNode.mk "" [])).qargs == [0, 1]) = false)
    (hmir : ((twoQubitOps (decomp (usBasisFidelity fid none) (mirrorMat M))).headD
        (GNode.mk "" [])).qargs = [1, 0]) :
    synthTwoQubitNode decomp true fid true (some adj) none 0 1 M =
        spliceOps [1, 0] (decomp (usBasisFidelity fid none) (mirrorMat M)) ∧
      ((twoQubitOps (synthTwoQubitNode decomp true fid true (some adj) none 0 1 M)).headD
          (GNode.mk "" [])).qargs = [0, 1] := by
  have hnat : naturalDirectionCoupling adj 0 1 = some [0, 1] := by
    simp [naturalDirectionCoupling, h01, h10]
  have hmain : synthTwoQubitNode decomp true fid true (some adj) none 0 1 M =
      spliceOps [1, 0] (decomp (usBasisFidelity fid none) (mirrorMat M)) := by
    simp only [synthTwoQubitNode, hnat, hne, hdis]
    rfl
  refine ⟨hmain, ?_⟩
  rw [hmain, twoQubitOps_spliceOps]
  cases hL : twoQubitOps (decomp (usBasisFidelity fid none) (mirrorMat M)) with
  | nil =>
    rw [hL] at hmir
    exact absurd hmir (by decide)
  | cons g t =>
    rw [hL] at hmir
    simp only [List.headD_cons] at hmir
    simp only [spliceOps, List.map_cons, List.headD_cons]
    rw [hmir]
    rfl

/-- Witness for C7: a decomposer whose only gate comes out on internal
operands (1, 0) for both the original and the mirrored matrix. -/
theorem us_direction_fidelity_witness :
    synthTwoQubitNode decompW true 1 true (some adjW) none 0 1 matW =
        spliceOps [1, 0] (decompW (usBasisFidelity 1 none) (mirrorMat matW)) ∧
      ((twoQubitOps (synthTwoQubitNode decompW true 1 true (some adjW) none 0 1 matW)).headD
          (GNode.mk "" [])).qargs = [0, 1] :=
  us_direction_fidelity decompW 1 adjW matW rfl rfl rfl rfl rfl

/-- C10: `UnitarySynthesis.run` considers `swap` nodes for synthesis
exactly when `pulse_optimize` is true; with `pulse_optimize` false
only nodes named `unitary` are rewritten and every `swap` node is left
untouched. -/
theorem us_swap_only_with_pulse_optimize (synth : GNode → List GNode)
    (n : GNode) (q : List Nat) (rest : List GNode) :
    strMem (nodesToSynthesize true) "swap" = true ∧
    strMem (nodesToSynthesize false) "swap" = false ∧
    usRun false synth (n :: rest) =
      (if n.name = "unitary" then synth n else [n]) ++ usRun false synth rest ∧
    usRun false synth (GNode.mk "swap" q :: rest) =
      GNode.mk "swap" q :: usRun false synth rest := by
  refine ⟨rfl, rfl, ?_, rfl⟩
  rw [usRun]
  by_cases h : n.name = "unitary"
  · simp [nodesToSynthesize, strMem, h]
  · simp [nodesToSynthesize, strMem, h]

/-! ### Claim theorems (marginal_counts) -/

/-- C8 counterexample: `marginal_counts({'000': 10, '011': 5,
'101': 3, '110': 2}, indices=[0])` returns `{'0': 12, '1': 8}` — bit
position 0 is the least significant (rightmost) character — and not
the claimed `{'0': 13, '1': 7}` (which is the marginal over bit
position 1). -/
theorem marginal_counts_scenario_cex :
    marginal_counts countsC8 (some [0]) false ≠
        Except.ok [(['0'], 13), (['1'], 7)] ∧
      marginal_counts countsC8 (some [0]) false =
        Except.ok [(['0'], 12), (['1'], 8)] := by
  constructor
  · intro h
    have h1 : marginal_counts countsC8 (some [0]) false =
        Except.ok [(['0'], 12), (['1'], 8)] := rfl
    rw [h1] at h
    exact absurd (Except.ok.inj h) (by decide)
  · rfl

/-- C8 amended: the scenario's marginal over bit position 0 (the
least-significant, rightmost character of each key) is
`{'0': 12, '1': 8}`. -/
theorem marginal_counts_scenario_amended :
    marginal_counts countsC8 (some [0]) false =
      Except.ok [(['0'], 12), (['1'], 8)] := rfl

end QiskitSpec
